import Mathlib

/-!
Shallow embedding of `scripts/generate-upstream-sync-report.py`.

The script is a sequential pipeline around git: it scans downstream commit
messages for `Backport:` footers, builds the set of upstream SHAs they cover,
filters the upstream commit list against that set, fetches commit details,
calls a report generator once, and writes its response to one file.

Modelling choices:
* Python strings are modelled as `List Char` (`Str`).  Python's `str.split`,
  `str.strip`, `str.startswith`, slicing and `splitlines` are re-implemented
  structurally below.  `splitlines` is modelled as splitting on `'\n'` alone:
  git output is LF-terminated, and every consumer in the script either ignores
  empty lines or lines without the scanned prefix, so the difference (Python
  drops a trailing empty piece and also breaks on rarer control characters)
  is invisible to the scanned content.
* Shelling out to git is modelled by oracles passed as parameters:
  `rev_parse : Str → Except Unit Str` models `git rev-parse --verify`
  (`Except.ok` carries the stripped stdout, `Except.error` models
  `subprocess.CalledProcessError`), and `range_log : Str → Str → Str` models
  the stdout of `git log --format=%H old^..new` run with `check=False`
  (total: on failure git prints nothing and the script keeps the empty
  stdout).
* The Python `set` is modelled as `Finset Str`; mutation-by-insertion over the
  nested loops is modelled as `toFinset` of the concatenation of the
  contributions of every footer entry, which has the same membership.
* `main`'s tail (lines 400-435) is modelled as an event trace: the early
  return when nothing is unhandled, the single generator call, and the single
  `Path.write_text` (which overwrites the file) on success; an exception from
  the generator propagates, so no write event follows a failed call.
-/

/-- Python strings, modelled as lists of characters (code points, matching
Python's `str` indexing and slicing semantics). -/
abbrev Str : Type := List Char

/-- The ASCII characters removed by Python's `str.strip()` with no argument:
space, tab, newline, carriage return, vertical tab, form feed. -/
def isStripChar (c : Char) : Bool :=
  c = ' ' || c = '\t' || c = '\n' || c = '\r' || c = '\x0b' || c = '\x0c'

/-- Python `s.strip()`: drop whitespace from both ends. -/
def pstrip (s : Str) : Str :=
  ((s.dropWhile isStripChar).reverse.dropWhile isStripChar).reverse

/-- Python `s.split(sep)` for a one-character separator `sep`: splits at every
occurrence, keeping empty pieces (`"".split(",") = [""]`). -/
def splitOnChar (c : Char) : Str → List Str
  | [] => [[]]
  | x :: xs =>
    if x = c then [] :: splitOnChar c xs
    else
      match splitOnChar c xs with
      | [] => [[x]]
      | y :: ys => (x :: y) :: ys

/-- Python `entry.split("...", 1)` combined with the `"..." in entry` test:
returns `some (before, after)` splitting at the leftmost occurrence of the
three-dot separator, or `none` when the separator does not occur. -/
def splitFirstEllipsis : Str → Option (Str × Str)
  | [] => none
  | '.' :: '.' :: '.' :: rest => some ([], rest)
  | x :: xs =>
    match splitFirstEllipsis xs with
    | none => none
    | some (b, a) => some (x :: b, a)

/-- Line 72-78: `parse_backport_footer(value)` is the comprehension
`[entry.strip() for entry in value.split(",") if entry.strip()]` — split on
commas, strip each piece, keep only the non-empty results. -/
def parse_backport_footer (value : Str) : List Str :=
  ((splitOnChar ',' value).map pstrip).filter (fun e => !e.isEmpty)

/-- Line 63-69: `resolve_sha` runs `git rev-parse --verify` and catches
`CalledProcessError`, returning `None` (here `none`) instead of raising. -/
def resolve_sha (rev_parse : Str → Except Unit Str) (sha : Str) : Option Str :=
  match rev_parse sha with
  | Except.ok full => some full
  | Except.error _ => none

/-- Lines 95-116, body of the innermost loop of `get_handled_upstream_shas`:
the SHAs one footer entry adds to the `handled` set.  A range entry
(containing `...`) is split at the first occurrence, both endpoints stripped
and resolved; if either fails the entry is skipped (`continue`), otherwise
every non-empty line of the `git log --format=%H old^..new` output is added.
A bare entry is resolved and added only when resolution succeeds. -/
def entryShas (rev_parse : Str → Except Unit Str) (range_log : Str → Str → Str)
    (entry : Str) : List Str :=
  match splitFirstEllipsis entry with
  | some (p0, p1) =>
    match resolve_sha rev_parse (pstrip p0), resolve_sha rev_parse (pstrip p1) with
    | some old_full, some new_full =>
      (splitOnChar '\n' (range_log old_full new_full)).filter (fun sha => !sha.isEmpty)
    | _, _ => []
  | none =>
    match resolve_sha rev_parse entry with
    | some full => [full]
    | none => []

/-- Lines 91-116: the SHAs one line of a commit body contributes.  Lines not
starting with the literal prefix `Backport:` are skipped; otherwise the text
after the 9-character prefix is stripped and parsed into entries. -/
def lineShas (rev_parse : Str → Except Unit Str) (range_log : Str → Str → Str)
    (line : Str) : List Str :=
  if "Backport:".data.isPrefixOf line then
    (parse_backport_footer (pstrip (line.drop 9))).flatMap (entryShas rev_parse range_log)
  else []

/-- Lines 90-116: the SHAs one commit body contributes (its lines scanned in
order). -/
def bodyShas (rev_parse : Str → Except Unit Str) (range_log : Str → Str → Str)
    (commit_body : Str) : List Str :=
  (splitOnChar '\n' commit_body).flatMap (lineShas rev_parse range_log)

/-- The handled set accumulated over a list of commit bodies.  The Python
`set.add` calls are modelled by collecting every contributed SHA and taking
`toFinset`, which has the same membership as insertion order by order. -/
def handledOfBodies (rev_parse : Str → Except Unit Str) (range_log : Str → Str → Str)
    (bodies : List Str) : Finset Str :=
  (bodies.flatMap (bodyShas rev_parse range_log)).toFinset

/-- Lines 81-118: `get_handled_upstream_shas`.  Its input here is the text of
`git log --format=%B%x00 merge_base..main` (already stripped by
`run_command`), which it splits on NUL into commit bodies. -/
def get_handled_upstream_shas (rev_parse : Str → Except Unit Str)
    (range_log : Str → Str → Str) (log_output : Str) : Finset Str :=
  handledOfBodies rev_parse range_log (splitOnChar '\x00' log_output)

/-- Lines 121-136: `get_upstream_commits`, modelled from the filtering loop
over the already-extracted oneline SHAs (`all_shas`, lines 126-136): a ref is
dropped iff it resolves and its full SHA is in `handled`; a ref whose
resolution fails is kept. -/
def get_upstream_commits (rev_parse : Str → Except Unit Str) (all_shas : List Str)
    (handled : Finset Str) : List Str :=
  match all_shas with
  | [] => []
  | short_sha :: rest =>
    match resolve_sha rev_parse short_sha with
    | some full =>
      if full ∈ handled then get_upstream_commits rev_parse rest handled
      else short_sha :: get_upstream_commits rev_parse rest handled
    | none => short_sha :: get_upstream_commits rev_parse rest handled

/-- The boolean keep-test the filtering loop of `get_upstream_commits`
implements for each ref: keep unless it resolves to a handled full SHA. -/
def keepRef (rev_parse : Str → Except Unit Str) (handled : Finset Str) (s : Str) : Bool :=
  match resolve_sha rev_parse s with
  | some full => decide (full ∉ handled)
  | none => true

/-- Lines 31-42: the `CommitInfo` dataclass. -/
structure CommitInfo where
  sha : Str
  short_sha : Str
  message : Str
  author : Str
  date : Str
  files_changed : List Str
  diff_stat : Str
  full_diff : Str

/-- Lines 139-166: `get_commit_info`, parameterised by the raw git outputs it
would fetch.  `files_changed` keeps the non-empty lines of the name-only
diff-tree output; `full_diff` is the `git show` output sliced to its first
50000 characters (`full_diff[:50000]`). -/
def get_commit_info (sha message author date short_sha files diff_stat full_diff : Str) :
    CommitInfo :=
  { sha := sha
    short_sha := short_sha
    message := message
    author := author
    date := date
    files_changed := (splitOnChar '\n' files).filter (fun f => !f.isEmpty)
    diff_stat := diff_stat
    full_diff := full_diff.take 50000 }

/-- UTF-8 byte length of a modelled string. -/
def utf8Len (s : Str) : Nat :=
  (s.map Char.utf8Size).sum

/-- Observable effects of the tail of `main` (lines 400-435): the call to the
report generator and the write of the report file. -/
inductive ReportEvent where
  | genCall : ReportEvent
  | fileWrite : Str → ReportEvent
deriving DecidableEq

/-- Lines 400-435 of `main` as an event trace: if the filtered upstream list
is empty, return at once (no generator call, no write); otherwise call the
generator once; if it raises the exception propagates (no write), otherwise
`output_file.write_text(report)` runs exactly once with the verbatim
response. -/
def mainReportPhase (upstream_shas : List Str) (gen : Except Unit Str) : List ReportEvent :=
  if upstream_shas.isEmpty then []
  else
    ReportEvent.genCall ::
      (match gen with
       | Except.ok report => [ReportEvent.fileWrite report]
       | Except.error _ => [])

/-- Whether the modelled tail of `main` ends without an uncaught exception. -/
def mainReportOk (upstream_shas : List Str) (gen : Except Unit Str) : Bool :=
  if upstream_shas.isEmpty then true
  else
    match gen with
    | Except.ok _ => true
    | Except.error _ => false

/-- The contents written to the report file, in order, by a trace. -/
def writesOf (events : List ReportEvent) : List Str :=
  events.filterMap (fun e =>
    match e with
    | ReportEvent.fileWrite content => some content
    | ReportEvent.genCall => none)

/-- Final contents of the report file after a trace, starting from its prior
contents; `Path.write_text` replaces the whole file. -/
def fileAfter (prior : Option Str) (events : List ReportEvent) : Option Str :=
  events.foldl (fun acc e =>
    match e with
    | ReportEvent.fileWrite content => some content
    | ReportEvent.genCall => acc) prior

/-! Concrete oracles and inputs used to instantiate the theorems below.
`rpEx` resolves the abbreviated refs `a1`, `b2`, `c3` to full identifiers and
fails on everything else; `rangeLogEx` lists the inclusive range between the
two resolved endpoints the way `git log --format=%H old^..new` prints it,
newest first. -/

def rpEx : Str → Except Unit Str := fun s =>
  if s = "a1".data then Except.ok "A1FULL".data
  else if s = "b2".data then Except.ok "B2FULL".data
  else if s = "c3".data then Except.ok "C3FULL".data
  else Except.error ()

def rangeLogEx : Str → Str → Str := fun old_full new_full =>
  if old_full = "A1FULL".data ∧ new_full = "B2FULL".data then
    "B2FULL\nMIDFULL\nA1FULL".data
  else []

def logEx : Str :=
  "Fix foo\n\nBackport: a1...b2, c3\x00Other commit\x00".data

/-! Shared helper lemmas about the embedding. -/

theorem mem_handledOfBodies (rp : Str → Except Unit Str) (g : Str → Str → Str)
    (bodies : List Str) (x : Str) :
    x ∈ handledOfBodies rp g bodies ↔ ∃ body ∈ bodies, x ∈ bodyShas rp g body := by
  simp [handledOfBodies, List.mem_flatMap]

theorem mem_bodyShas (rp : Str → Except Unit Str) (g : Str → Str → Str)
    (body x : Str) :
    x ∈ bodyShas rp g body ↔ ∃ line ∈ splitOnChar '\n' body, x ∈ lineShas rp g line := by
  simp [bodyShas, List.mem_flatMap]

theorem mem_get_handled (rp : Str → Except Unit Str) (g : Str → Str → Str)
    (log_output x : Str) :
    x ∈ get_handled_upstream_shas rp g log_output ↔
      ∃ body ∈ splitOnChar '\x00' log_output,
        ∃ line ∈ splitOnChar '\n' body, x ∈ lineShas rp g line := by
  simp [get_handled_upstream_shas, mem_handledOfBodies, mem_bodyShas]

theorem lineShas_backport_line (rp : Str → Except Unit Str) (g : Str → Str → Str)
    (line : Str) (h : ("Backport:".data.isPrefixOf line) = true) :
    lineShas rp g line =
      (parse_backport_footer (pstrip (line.drop 9))).flatMap (entryShas rp g) := by
  simp [lineShas, h]

theorem entryShas_range (rp : Str → Except Unit Str) (g : Str → Str → Str)
    (entry p0 p1 old_full new_full : Str)
    (hsplit : splitFirstEllipsis entry = some (p0, p1))
    (hold : resolve_sha rp (pstrip p0) = some old_full)
    (hnew : resolve_sha rp (pstrip p1) = some new_full) :
    entryShas rp g entry =
      (splitOnChar '\n' (g old_full new_full)).filter (fun sha => !sha.isEmpty) := by
  unfold entryShas
  rw [hsplit]
  dsimp only
  rw [hold, hnew]

theorem keepRef_eq_true_iff (rp : Str → Except Unit Str) (handled : Finset Str) (s : Str) :
    keepRef rp handled s = true ↔
      ¬ ∃ full, resolve_sha rp s = some full ∧ full ∈ handled := by
  unfold keepRef
  cases h : resolve_sha rp s with
  | some full => simp [h]
  | none => simp [h]

theorem get_upstream_commits_eq_filter (rp : Str → Except Unit Str)
    (handled : Finset Str) (all_shas : List Str) :
    get_upstream_commits rp all_shas handled = all_shas.filter (keepRef rp handled) := by
  induction all_shas with
  | nil => rfl
  | cons s rest ih =>
    unfold get_upstream_commits
    cases h : resolve_sha rp s with
    | some full =>
      by_cases hm : full ∈ handled
      · simp [List.filter_cons, keepRef, h, hm, ih]
      · simp [List.filter_cons, keepRef, h, hm, ih]
    | none => simp [List.filter_cons, keepRef, h, ih]

theorem flatMap_toFinset_of_perm (f : Str → List Str) (l1 l2 : List Str)
    (h : l1.Perm l2) :
    (l1.flatMap f).toFinset = (l2.flatMap f).toFinset := by
  ext x
  simp only [List.mem_toFinset, List.mem_flatMap]
  constructor
  · rintro ⟨a, ha, hx⟩
    exact ⟨a, h.mem_iff.mp ha, hx⟩
  · rintro ⟨a, ha, hx⟩
    exact ⟨a, h.mem_iff.mpr ha, hx⟩

theorem utf8Size_le_four (c : Char) : c.utf8Size ≤ 4 := by
  unfold Char.utf8Size
  dsimp only
  split_ifs <;> norm_num

theorem utf8Len_replicate (n : Nat) (c : Char) :
    utf8Len (List.replicate n c) = n * c.utf8Size := by
  induction n with
  | zero => simp [utf8Len]
  | succ k ih =>
    simp only [utf8Len, List.replicate_succ, List.map_cons, List.sum_cons] at *
    rw [ih, Nat.succ_mul]
    omega

theorem utf8Len_le_four_mul (s : Str) : utf8Len s ≤ 4 * s.length := by
  induction s with
  | nil => simp [utf8Len]
  | cons c cs ih =>
    simp only [utf8Len, List.map_cons, List.sum_cons, List.length_cons] at *
    have := utf8Size_le_four c
    omega

/-- C1: for every range footer entry `a...b` (entry of a `Backport:` line of
the scanned history) whose two endpoints both resolve, every commit that the
range oracle lists — the inclusive path from `a` to `b`, including both
endpoints, the way `git log --format=%H old^..new` prints it — is in the set
produced by `get_handled_upstream_shas`, and the entry contributes exactly
that list, so nothing outside the path is added by this entry. -/
theorem c1_range_entry_inclusive (rp : Str → Except Unit Str) (g : Str → Str → Str)
    (log_output body line entry p0 p1 old_full new_full : Str) (path : List Str)
    (hbody : body ∈ splitOnChar '\x00' log_output)
    (hline : line ∈ splitOnChar '\n' body)
    (hpre : ("Backport:".data.isPrefixOf line) = true)
    (hentry : entry ∈ parse_backport_footer (pstrip (line.drop 9)))
    (hsplit : splitFirstEllipsis entry = some (p0, p1))
    (hold : resolve_sha rp (pstrip p0) = some old_full)
    (hnew : resolve_sha rp (pstrip p1) = some new_full)
    (hpath : (splitOnChar '\n' (g old_full new_full)).filter (fun sha => !sha.isEmpty)
      = path) :
    (∀ c ∈ path, c ∈ get_handled_upstream_shas rp g log_output) ∧
      entryShas rp g entry = path := by
  have hshas : entryShas rp g entry = path := by
    rw [entryShas_range rp g entry p0 p1 old_full new_full hsplit hold hnew, hpath]
  refine ⟨?_, hshas⟩
  intro c hc
  rw [mem_get_handled]
  refine ⟨body, hbody, line, hline, ?_⟩
  rw [lineShas_backport_line rp g line hpre, List.mem_flatMap]
  exact ⟨entry, hentry, by rw [hshas]; exact hc⟩

/-- Witness for C1: a concrete history whose footer `Backport: a1...b2, c3`
has a resolvable range; the middle commit of the path lands in the handled
set and the entry contributes exactly the three-commit path. -/
theorem c1_range_entry_inclusive_witness :
    ("Fix foo\n\nBackport: a1...b2, c3".data ∈ splitOnChar '\x00' logEx) ∧
      "MIDFULL".data ∈ get_handled_upstream_shas rpEx rangeLogEx logEx ∧
      entryShas rpEx rangeLogEx "a1...b2".data =
        ["B2FULL".data, "MIDFULL".data, "A1FULL".data] := by
  have h := c1_range_entry_inclusive rpEx rangeLogEx logEx
    "Fix foo\n\nBackport: a1...b2, c3".data "Backport: a1...b2, c3".data
    "a1...b2".data "a1".data "b2".data "A1FULL".data "B2FULL".data
    ["B2FULL".data, "MIDFULL".data, "A1FULL".data]
    (by decide) (by decide) (by decide) (by decide) (by decide) (by decide)
    (by decide) (by decide)
  exact ⟨by decide, h.1 "MIDFULL".data (by decide), h.2⟩

/-- C2: `get_upstream_commits` returns an order-preserving subsequence of its
input list; a ref appears in the output iff it is in the input and does not
resolve to a member of the handled set; in particular a ref whose resolution
fails is always retained. -/
theorem c2_filter_unhandled (rp : Str → Except Unit Str) (all_shas : List Str)
    (handled : Finset Str) :
    List.Sublist (get_upstream_commits rp all_shas handled) all_shas ∧
      (∀ s, s ∈ get_upstream_commits rp all_shas handled ↔
        s ∈ all_shas ∧ ¬ ∃ full, resolve_sha rp s = some full ∧ full ∈ handled) ∧
      (∀ s, s ∈ all_shas → resolve_sha rp s = none →
        s ∈ get_upstream_commits rp all_shas handled) := by
  have hmem : ∀ s, s ∈ get_upstream_commits rp all_shas handled ↔
      s ∈ all_shas ∧ ¬ ∃ full, resolve_sha rp s = some full ∧ full ∈ handled := by
    intro s
    rw [get_upstream_commits_eq_filter, List.mem_filter, keepRef_eq_true_iff]
  refine ⟨?_, hmem, ?_⟩
  · rw [get_upstream_commits_eq_filter]
    exact List.filter_sublist _
  · intro s hs hn
    refine (hmem s).mpr ⟨hs, ?_⟩
    rintro ⟨full, hf, _⟩
    rw [hn] at hf
    cases hf

/-- Witness for C2: with `handled` built from `Backport: c3`, the
unresolvable ref `zz` is retained by the filter. -/
theorem c2_filter_unhandled_witness :
    ("zz".data ∈ (["a1".data, "zz".data, "c3".data] : List Str) ∧
        resolve_sha rpEx "zz".data = none) ∧
      "zz".data ∈ get_upstream_commits rpEx ["a1".data, "zz".data, "c3".data]
        (get_handled_upstream_shas rpEx rangeLogEx "Backport: c3".data) :=
  ⟨⟨by decide, by decide⟩,
    (c2_filter_unhandled rpEx ["a1".data, "zz".data, "c3".data]
        (get_handled_upstream_shas rpEx rangeLogEx "Backport: c3".data)).2.2
      "zz".data (by decide) (by decide)⟩

/-- C3: `parse_backport_footer` splits its input on commas, strips each piece
and keeps exactly the non-empty results (so an entry is in the output iff it
is the non-empty strip of one comma-separated piece), and the malformed value
with spare commas and spacing parses to the single entry `a`; parsing is a
total function, so empty entries never cause a failure. -/
theorem c3_parse_footer_tolerant (value e : Str) :
    (e ∈ parse_backport_footer value ↔
        (∃ raw ∈ splitOnChar ',' value, pstrip raw = e) ∧ e ≠ []) ∧
      parse_backport_footer " ,, a,, ".data = ["a".data] := by
  constructor
  · simp only [parse_backport_footer, List.mem_filter, List.mem_map,
      Bool.not_eq_true', List.isEmpty_eq_false, ne_eq]
  · decide

/-- Witness for C3: the entry `a` of the malformed value, with its originating
comma piece. -/
theorem c3_parse_footer_tolerant_witness :
    "a".data ∈ parse_backport_footer " ,, a,, ".data ∧
      (∃ raw ∈ splitOnChar ',' " ,, a,, ".data, pstrip raw = "a".data) ∧
        "a".data ≠ ([] : Str) :=
  ⟨by decide, (c3_parse_footer_tolerant " ,, a,, ".data "a".data).1.mp (by decide)⟩

/-- C4: a footer entry containing `...` is split at the first occurrence into
trimmed endpoints; when either endpoint fails to resolve the entry
contributes nothing at all to the handled set — no partial addition of the
resolvable endpoint or of any range member. -/
theorem c4_range_entry_skipped (rp : Str → Except Unit Str) (g : Str → Str → Str)
    (entry p0 p1 : Str)
    (hsplit : splitFirstEllipsis entry = some (p0, p1))
    (hfail : resolve_sha rp (pstrip p0) = none ∨ resolve_sha rp (pstrip p1) = none) :
    entryShas rp g entry = [] := by
  unfold entryShas
  rw [hsplit]
  dsimp only
  rcases hfail with h | h
  · rw [h]
  · rw [h]
    cases resolve_sha rp (pstrip p0) <;> rfl

/-- Witness for C4: the range entry `a1...zz` whose new endpoint does not
resolve contributes nothing, even though `a1` alone would resolve. -/
theorem c4_range_entry_skipped_witness :
    (splitFirstEllipsis "a1...zz".data = some ("a1".data, "zz".data) ∧
        resolve_sha rpEx (pstrip "zz".data) = none) ∧
      entryShas rpEx rangeLogEx "a1...zz".data = [] :=
  ⟨⟨by decide, by decide⟩,
    c4_range_entry_skipped rpEx rangeLogEx "a1...zz".data "a1".data "zz".data
      (by decide) (Or.inr (by decide))⟩

/-- C5: `resolve_sha` either returns the canonical identifier carried by a
successful `git rev-parse` or returns `none` when the call raises, never
propagating the exception; consequently a bare footer entry that fails to
resolve is skipped and the remaining entries of the line are still all
processed — the scan is not aborted. -/
theorem c5_resolve_failure_skipped (rp : Str → Except Unit Str) (g : Str → Str → Str)
    (sha bad : Str) (es fs : List Str)
    (hbare : splitFirstEllipsis bad = none)
    (hfail : resolve_sha rp bad = none) :
    ((∃ f, rp sha = Except.ok f ∧ resolve_sha rp sha = some f) ∨
        (resolve_sha rp sha = none ∧ ∃ e, rp sha = Except.error e)) ∧
      entryShas rp g bad = [] ∧
      (es ++ bad :: fs).flatMap (entryShas rp g) =
        es.flatMap (entryShas rp g) ++ fs.flatMap (entryShas rp g) := by
  have hskip : entryShas rp g bad = [] := by
    unfold entryShas
    rw [hbare]
    dsimp only
    rw [hfail]
  refine ⟨?_, hskip, ?_⟩
  · cases h : rp sha with
    | ok f => exact Or.inl ⟨f, rfl, by simp [resolve_sha, h]⟩
    | error e => exact Or.inr ⟨by simp [resolve_sha, h], e, rfl⟩
  · simp [List.flatMap_append, List.flatMap_cons, hskip]

/-- Witness for C5: the unresolvable bare entry `zz` between two resolvable
entries is skipped while both neighbours still contribute. -/
theorem c5_resolve_failure_skipped_witness :
    (splitFirstEllipsis "zz".data = none ∧ resolve_sha rpEx "zz".data = none) ∧
      entryShas rpEx rangeLogEx "zz".data = [] ∧
      (["c3".data] ++ "zz".data :: ["b2".data]).flatMap (entryShas rpEx rangeLogEx) =
        (["c3".data] : List Str).flatMap (entryShas rpEx rangeLogEx) ++
          (["b2".data] : List Str).flatMap (entryShas rpEx rangeLogEx) :=
  ⟨⟨by decide, by decide⟩,
    (c5_resolve_failure_skipped rpEx rangeLogEx "a1".data "zz".data
        ["c3".data] ["b2".data] (by decide) (by decide)).2⟩

/-- C6: the report phase writes the output file at most once per run; when the
run reaches generation (non-empty unhandled list) and the generator succeeds,
the file is written exactly once with the verbatim response, replacing any
prior contents; when the generation call fails, nothing at all is written. -/
theorem c6_report_written_once (upstream_shas : List Str) (gen : Except Unit Str)
    (prior : Option Str) :
    (writesOf (mainReportPhase upstream_shas gen)).length ≤ 1 ∧
      (∀ report, gen = Except.ok report → upstream_shas ≠ [] →
        writesOf (mainReportPhase upstream_shas gen) = [report] ∧
          fileAfter prior (mainReportPhase upstream_shas gen) = some report) ∧
      (∀ e, gen = Except.error e →
        writesOf (mainReportPhase upstream_shas gen) = []) := by
  cases upstream_shas with
  | nil => cases gen <;> simp [mainReportPhase, writesOf, fileAfter]
  | cons a rest => cases gen <;> simp [mainReportPhase, writesOf, fileAfter]

/-- Witness for C6: with one unhandled commit and a successful generation, the
trace writes the verbatim response exactly once over the prior contents. -/
theorem c6_report_written_once_witness :
    ((Except.ok "REPORT".data : Except Unit Str) = Except.ok "REPORT".data ∧
        (["U1".data] : List Str) ≠ []) ∧
      writesOf (mainReportPhase ["U1".data] (Except.ok "REPORT".data)) = ["REPORT".data] ∧
      fileAfter (some "OLD".data)
          (mainReportPhase ["U1".data] (Except.ok "REPORT".data)) =
        some "REPORT".data :=
  ⟨⟨rfl, by decide⟩,
    (c6_report_written_once ["U1".data] (Except.ok "REPORT".data)
        (some "OLD".data)).2.1 "REPORT".data rfl (by decide)⟩

/-- C7: with the resolution and range-listing oracles fixed,
`get_handled_upstream_shas` is a pure function of the history text — running
it twice on unchanged text yields the identical set — and permuting the
commit bodies, the footer lines, or the entries of a line leaves the
resulting set unchanged. -/
theorem c7_pure_and_order_insensitive (rp : Str → Except Unit Str) (g : Str → Str → Str)
    (log_output : Str) (bodies1 bodies2 lines1 lines2 es1 es2 : List Str)
    (hb : bodies1.Perm bodies2) (hl : lines1.Perm lines2) (he : es1.Perm es2) :
    get_handled_upstream_shas rp g log_output =
        get_handled_upstream_shas rp g log_output ∧
      handledOfBodies rp g bodies1 = handledOfBodies rp g bodies2 ∧
      (lines1.flatMap (lineShas rp g)).toFinset =
        (lines2.flatMap (lineShas rp g)).toFinset ∧
      (es1.flatMap (entryShas rp g)).toFinset =
        (es2.flatMap (entryShas rp g)).toFinset :=
  ⟨rfl, flatMap_toFinset_of_perm _ _ _ hb, flatMap_toFinset_of_perm _ _ _ hl,
    flatMap_toFinset_of_perm _ _ _ he⟩

/-- Witness for C7: swapping two commit bodies, two footer lines, or two
entries leaves the handled set unchanged on concrete inputs. -/
theorem c7_pure_and_order_insensitive_witness :
    handledOfBodies rpEx rangeLogEx ["Backport: c3".data, "Backport: b2".data] =
        handledOfBodies rpEx rangeLogEx ["Backport: b2".data, "Backport: c3".data] ∧
      ((["Backport: c3".data, "Backport: b2".data] : List Str).flatMap
          (lineShas rpEx rangeLogEx)).toFinset =
        ((["Backport: b2".data, "Backport: c3".data] : List Str).flatMap
          (lineShas rpEx rangeLogEx)).toFinset ∧
      ((["c3".data, "b2".data] : List Str).flatMap (entryShas rpEx rangeLogEx)).toFinset =
        ((["b2".data, "c3".data] : List Str).flatMap (entryShas rpEx rangeLogEx)).toFinset :=
  (c7_pure_and_order_insensitive rpEx rangeLogEx logEx
      ["Backport: c3".data, "Backport: b2".data]
      ["Backport: b2".data, "Backport: c3".data]
      ["Backport: c3".data, "Backport: b2".data]
      ["Backport: b2".data, "Backport: c3".data]
      ["c3".data, "b2".data] ["b2".data, "c3".data]
      (List.Perm.swap _ _ _) (List.Perm.swap _ _ _) (List.Perm.swap _ _ _)).2

/-- Counterexample for C8: the slice `full_diff[:50000]` bounds the number of
characters (code points), not bytes.  Fifty thousand and one copies of the
two-byte character é are stored as 50000 characters occupying 100000 UTF-8
bytes, exceeding the 50000-byte bound the claim asserts. -/
theorem c8_byte_bound_counterexample :
    50000 <
      utf8Len ((get_commit_info [] [] [] [] [] [] []
          (List.replicate 50001 'é')).full_diff) := by
  have h1 : (get_commit_info [] [] [] [] [] [] []
      (List.replicate 50001 'é')).full_diff = List.replicate 50000 'é' := by
    show (List.replicate 50001 'é').take 50000 = List.replicate 50000 'é'
    rw [List.take_replicate]
    norm_num
  have h2 : ('é').utf8Size = 2 := by decide
  rw [h1, utf8Len_replicate, h2]
  norm_num

/-- C8 amended: the stored diff/body is truncated to a fixed maximum number of
characters (50000, the truncation point not content-aware), so its character
length never exceeds 50000 and its UTF-8 byte length never exceeds 4 times
that; a bound of exactly 50000 bytes holds only when every stored character
is a single byte. -/
theorem c8_diff_truncated_amended
    (sha message author date short_sha files diff_stat raw : Str) :
    (get_commit_info sha message author date short_sha files
        diff_stat raw).full_diff.length ≤ 50000 ∧
      utf8Len ((get_commit_info sha message author date short_sha files
        diff_stat raw).full_diff) ≤ 4 * 50000 := by
  constructor
  · show (raw.take 50000).length ≤ 50000
    exact List.length_take_le 50000 raw
  · show utf8Len (raw.take 50000) ≤ 4 * 50000
    have h1 := utf8Len_le_four_mul (raw.take 50000)
    have h2 := List.length_take_le 50000 raw
    omega

/-- C9: when the filtered unhandled list is empty the run returns early and
completes successfully: the report generator is never invoked, no write event
occurs, and the report file keeps whatever contents it had before. -/
theorem c9_empty_no_write (gen : Except Unit Str) (prior : Option Str) :
    mainReportOk [] gen = true ∧
      mainReportPhase [] gen = [] ∧
      fileAfter prior (mainReportPhase [] gen) = prior ∧
      ReportEvent.genCall ∉ mainReportPhase [] gen := by
  refine ⟨rfl, rfl, rfl, ?_⟩
  simp [mainReportPhase]

/-- Every SHA a single footer entry contributes is an oracle output: either
the canonical identifier of a successful resolution or a line of a
range-listing output. -/
theorem entryShas_sources (rp : Str → Except Unit Str) (g : Str → Str → Str)
    (entry x : Str) (hx : x ∈ entryShas rp g entry) :
    (∃ s f, rp s = Except.ok f ∧ x = f) ∨
      (∃ a b, x ∈ (splitOnChar '\n' (g a b)).filter (fun sha => !sha.isEmpty)) := by
  unfold entryShas at hx
  split at hx
  · split at hx
    · exact Or.inr ⟨_, _, hx⟩
    · cases hx
  · split at hx
    · rename_i full heq
      unfold resolve_sha at heq
      split at heq
      · rename_i f hrp
        refine Or.inl ⟨entry, f, hrp, ?_⟩
        injection heq with h2
        simpa [h2] using hx
      · cases heq
    · cases hx

/-- C10: every identifier in the set returned by `get_handled_upstream_shas`
is an output of the resolution oracle or a line of a range-listing output —
never the raw footer token as written (a token enters only through what the
oracles return for it) — so the membership test in `get_upstream_commits`
compares canonical form against canonical form. -/
theorem c10_handled_canonical (rp : Str → Except Unit Str) (g : Str → Str → Str)
    (log_output x : Str) (hx : x ∈ get_handled_upstream_shas rp g log_output) :
    (∃ s f, rp s = Except.ok f ∧ x = f) ∨
      (∃ a b, x ∈ (splitOnChar '\n' (g a b)).filter (fun sha => !sha.isEmpty)) := by
  rw [mem_get_handled] at hx
  obtain ⟨body, _, line, _, hline⟩ := hx
  unfold lineShas at hline
  split at hline
  · rw [List.mem_flatMap] at hline
    obtain ⟨entry, _, hentry⟩ := hline
    exact entryShas_sources rp g entry x hentry
  · cases hline

/-- Witness for C10: the handled member coming from the bare entry `c3` is an
output of the resolution oracle. -/
theorem c10_handled_canonical_witness :
    "C3FULL".data ∈ get_handled_upstream_shas rpEx rangeLogEx logEx ∧
      ((∃ s f, rpEx s = Except.ok f ∧ "C3FULL".data = f) ∨
        (∃ a b, "C3FULL".data ∈
          (splitOnChar '\n' (rangeLogEx a b)).filter (fun sha => !sha.isEmpty))) :=
  ⟨by decide, c10_handled_canonical rpEx rangeLogEx logEx "C3FULL".data (by decide)⟩
